import Mathlib

/-!
Shallow embedding of the fetch hook system in src/hook.js (class
LaunchdHookSystem), together with theorems settling the specification
claims about it.

Modelling conventions:
* JS arrays of hook entries become Lean lists; `Array.prototype.sort`
  with the comparator (a, b) => b.priority - a.priority is modelled as a
  stable descending insertion sort (ES2019 requires sort stability, so
  any stable sort by that comparator computes the same list).
* A hook callback may throw, return `undefined`, or return a value;
  this is the HookOutcome type.  The try/catch in executeHooks maps a
  thrown outcome to "keep the previous payload".
* Nondeterministic fresh ids (Date.now/Math.random) are passed in as an
  explicit argument.
-/

namespace FetchHook

/-! ## Stable descending sort (model of the in-place Array sort) -/

/-- Insert `x` in front of the first element whose key is not strictly
greater than `x`'s key.  Used by `sortDesc`; keeps equal keys in their
input order. -/
def insertDesc {β : Type} (key : β → Int) (x : β) : List β → List β
  | [] => [x]
  | h :: t => if key x < key h then h :: insertDesc key x t else x :: h :: t

/-- Stable insertion sort by descending key: the model of the JS
`sort((a, b) => b.priority - a.priority)` call. -/
def sortDesc {β : Type} (key : β → Int) : List β → List β
  | [] => []
  | x :: xs => insertDesc key x (sortDesc key xs)

/-- Insert `e` behind every element whose key is greater than or equal to
`e`'s key.  This is where a freshly appended element ends up after the
re-sort. -/
def insertEnd {β : Type} (key : β → Int) (e : β) : List β → List β
  | [] => [e]
  | h :: t => if key e ≤ key h then h :: insertEnd key e t else e :: h :: t

theorem insertDesc_perm {β : Type} (key : β → Int) (x : β) (l : List β) :
    (insertDesc key x l).Perm (x :: l) := by
  induction l with
  | nil => simp [insertDesc]
  | cons h t ih =>
      simp only [insertDesc]
      split
      · exact ((ih.cons h).trans (List.Perm.swap x h t))
      · exact List.Perm.refl _

theorem sortDesc_perm {β : Type} (key : β → Int) (l : List β) :
    (sortDesc key l).Perm l := by
  induction l with
  | nil => simp [sortDesc]
  | cons x xs ih =>
      exact (insertDesc_perm key x (sortDesc key xs)).trans (ih.cons x)

/-- Output of `insertDesc` is sorted whenever the input is. -/
theorem insertDesc_sorted {β : Type} (key : β → Int) (x : β) (l : List β)
    (hl : l.Pairwise (fun a b => key b ≤ key a)) :
    (insertDesc key x l).Pairwise (fun a b => key b ≤ key a) := by
  induction l with
  | nil => simp [insertDesc]
  | cons h t ih =>
      rw [List.pairwise_cons] at hl
      simp only [insertDesc]
      split
      · rename_i hlt
        refine List.pairwise_cons.mpr ⟨?_, ih hl.2⟩
        intro b hb
        rcases List.mem_cons.mp (((insertDesc_perm key x t).mem_iff).mp hb)
          with hb | hb
        · subst hb; omega
        · exact hl.1 b hb
      · rename_i hge
        refine List.pairwise_cons.mpr ⟨?_, List.pairwise_cons.mpr hl⟩
        intro b hb
        rcases List.mem_cons.mp hb with hb | hb
        · subst hb; omega
        · exact le_trans (hl.1 b hb) (by omega)

theorem sortDesc_sorted {β : Type} (key : β → Int) (l : List β) :
    (sortDesc key l).Pairwise (fun a b => key b ≤ key a) := by
  induction l with
  | nil => simp [sortDesc]
  | cons x xs ih => exact insertDesc_sorted key x _ ih

/-- Stability of the insertion step, expressed through filtering on one
key value: the elements of any fixed key keep their relative order, with
the inserted element first exactly when it shares that key. -/
theorem insertDesc_filter {β : Type} (key : β → Int) (x : β) (l : List β)
    (p : Int) :
    (insertDesc key x l).filter (fun e => key e = p) =
      if key x = p then x :: l.filter (fun e => key e = p)
      else l.filter (fun e => key e = p) := by
  induction l with
  | nil =>
      simp only [insertDesc, List.filter]
      split <;> simp_all
  | cons h t ih =>
      simp only [insertDesc]
      split
      · rename_i hlt
        simp only [List.filter_cons, ih]
        by_cases hx : key x = p
        · have hh : ¬ (key h = p) := by omega
          simp [hx, hh]
        · simp [hx]
      · simp [List.filter_cons]

/-- Stability of `sortDesc`: filtering the sorted list down to any one
key value gives exactly the same sequence as filtering the input. -/
theorem sortDesc_filter {β : Type} (key : β → Int) (l : List β) (p : Int) :
    (sortDesc key l).filter (fun e => key e = p) =
      l.filter (fun e => key e = p) := by
  induction l with
  | nil => simp [sortDesc]
  | cons x xs ih =>
      simp only [sortDesc, insertDesc_filter, ih, List.filter_cons]
      split <;> simp_all

/-- Sorting an already-sorted list changes nothing. -/
theorem sortDesc_eq_of_sorted {β : Type} (key : β → Int) (l : List β)
    (hl : l.Pairwise (fun a b => key b ≤ key a)) :
    sortDesc key l = l := by
  induction l with
  | nil => rfl
  | cons x xs ih =>
      rw [List.pairwise_cons] at hl
      simp only [sortDesc, ih hl.2]
      cases xs with
      | nil => rfl
      | cons h t =>
          have := hl.1 h (by simp)
          simp only [insertDesc]
          rw [if_neg (by omega)]

/-- Idempotence of the sort. -/
theorem sortDesc_idem {β : Type} (key : β → Int) (l : List β) :
    sortDesc key (sortDesc key l) = sortDesc key l :=
  sortDesc_eq_of_sorted key _ (sortDesc_sorted key l)

/-- The two insertion operators commute; this is the heart of the proof
that re-sorting after each append is the same as one stable sort. -/
theorem insertDesc_insertEnd_comm {β : Type} (key : β → Int) (x e : β)
    (l : List β) :
    insertDesc key x (insertEnd key e l) =
      insertEnd key e (insertDesc key x l) := by
  induction l with
  | nil =>
      simp only [insertEnd, insertDesc]
      split_ifs <;> first | rfl | omega
  | cons h t ih =>
      simp only [insertEnd, insertDesc]
      split_ifs <;>
        simp only [insertEnd, insertDesc, ih] <;>
        split_ifs <;>
        first
          | rfl
          | omega

/-- Sorting a list with one element appended inserts that element behind
all elements of greater-or-equal key in the sorted remainder. -/
theorem sortDesc_append_singleton {β : Type} (key : β → Int) (l : List β)
    (e : β) :
    sortDesc key (l ++ [e]) = insertEnd key e (sortDesc key l) := by
  induction l with
  | nil => simp [sortDesc, insertEnd, insertDesc]
  | cons x xs ih =>
      rw [List.cons_append]
      simp only [sortDesc]
      rw [ih]
      exact insertDesc_insertEnd_comm key x e (sortDesc key xs)

/-! ## Hook registry (registerHook / removeHook / executeHooks) -/

/-- Possible outcomes of one JS hook callback invocation: it can throw,
return `undefined`, or return a replacement payload. -/
inductive HookOutcome (α : Type) where
  | thrown
  | undef
  | value (v : α)
deriving DecidableEq

/-- One element of a hook channel, as pushed by `registerHook`. -/
structure HookEntry (α : Type) where
  callback : α → α → HookOutcome α
  priority : Int
  id : String
  enabled : Bool

/-- Priority projection used by every channel sort. -/
def entryPrio {α : Type} (e : HookEntry α) : Int := e.priority

/-- Options bag accepted by `registerHook`. -/
structure HookOptions where
  priority : Option Int := none
  id : Option String := none
  enabled : Option Bool := none

/-- JS `a || b` for an optional string `a`: the fallback is used when the
value is absent or the empty string (both falsy). -/
def jsOrString (v : Option String) (fallback : String) : String :=
  match v with
  | some s => if s = "" then fallback else s
  | none => fallback

/-- The entry object literal pushed by `registerHook`; `fresh` stands for
the generated `hook_${Date.now()}_${Math.random()}` id. -/
def mkEntry {α : Type} (cb : α → α → HookOutcome α) (opts : HookOptions)
    (fresh : String) : HookEntry α :=
  { callback := cb
    priority := opts.priority.getD 0
    id := jsOrString opts.id fresh
    enabled := opts.enabled != some false }

/-- Result of `registerHook`: the updated channel array and the returned
id value. -/
structure RegisterResult (α : Type) where
  channel : List (HookEntry α)
  returnedId : String

/-- Model of `registerHook` on one (valid) channel: push the new entry,
re-sort by descending priority, then return
`options.id || hooks[hooks.length - 1].id` — note that the index is read
from the array after the sort. -/
def registerHook {α : Type} (chan : List (HookEntry α))
    (cb : α → α → HookOutcome α) (opts : HookOptions) (fresh : String) :
    RegisterResult α :=
  let entry := mkEntry cb opts fresh
  let sorted := sortDesc entryPrio (chan ++ [entry])
  { channel := sorted
    returnedId := jsOrString opts.id ((sorted.getLast?.getD entry).id) }

/-- Model of `removeHook`: drop every entry whose id matches. -/
def removeHook {α : Type} (chan : List (HookEntry α)) (hookId : String) :
    List (HookEntry α) :=
  chan.filter (fun h => h.id != hookId)

/-- Loop body of `executeHooks` over the already-filtered entry list.
Carries the accumulated payload (`result`), the original payload
(`data`, passed as the constant second argument), and records the id of
every invoked entry.  A thrown callback is caught and leaves the
accumulated payload unchanged; an `undefined` return also keeps it. -/
def executeHooksFrom {α : Type} (orig : α) :
    List (HookEntry α) → α → α × List String
  | [], acc => (acc, [])
  | e :: rest, acc =>
      let acc2 :=
        match e.callback acc orig with
        | .thrown => acc
        | .undef => acc
        | .value v => v
      let r := executeHooksFrom orig rest acc2
      (r.1, e.id :: r.2)

/-- Model of `executeHooks`: filter to the enabled entries, then run them
in array order.  Returns the final payload and the trace of invoked
entry ids. -/
def executeHooks {α : Type} (chan : List (HookEntry α)) (data : α) :
    α × List String :=
  executeHooksFrom data (chan.filter (fun h => h.enabled)) data

theorem executeHooksFrom_trace {α : Type} (orig : α)
    (l : List (HookEntry α)) (acc : α) :
    (executeHooksFrom orig l acc).2 = l.map (fun e => e.id) := by
  induction l generalizing acc with
  | nil => rfl
  | cons e rest ih => simp [executeHooksFrom, ih]

/-- The trace of `executeHooks` is exactly the enabled entries in channel
order. -/
theorem executeHooks_trace {α : Type} (chan : List (HookEntry α)) (d : α) :
    (executeHooks chan d).2 =
      (chan.filter (fun h => h.enabled)).map (fun e => e.id) := by
  simp [executeHooks, executeHooksFrom_trace]

theorem executeHooksFrom_append {α : Type} (orig : α)
    (l1 l2 : List (HookEntry α)) (acc : α) :
    executeHooksFrom orig (l1 ++ l2) acc =
      ((executeHooksFrom orig l2 (executeHooksFrom orig l1 acc).1).1,
        (executeHooksFrom orig l1 acc).2 ++
          (executeHooksFrom orig l2 (executeHooksFrom orig l1 acc).1).2) := by
  induction l1 generalizing acc with
  | nil => simp [executeHooksFrom]
  | cons e rest ih => simp [executeHooksFrom, ih]

/-- One registration call: the callback, the options bag, and the fresh
id the environment would generate for it. -/
structure RegCall (α : Type) where
  cb : α → α → HookOutcome α
  opts : HookOptions
  fresh : String

/-- Entries in registration order (what was pushed, before sorting). -/
def entriesOf {α : Type} (calls : List (RegCall α)) : List (HookEntry α) :=
  calls.map (fun c => mkEntry c.cb c.opts c.fresh)

/-- The channel contents after a sequence of `registerHook` calls
starting from an empty channel. -/
def channelOf {α : Type} (calls : List (RegCall α)) : List (HookEntry α) :=
  calls.foldl (fun ch c => (registerHook ch c.cb c.opts c.fresh).channel) []

theorem channelOf_append_singleton {α : Type} (calls : List (RegCall α))
    (c : RegCall α) :
    channelOf (calls ++ [c]) =
      sortDesc entryPrio (channelOf calls ++ [mkEntry c.cb c.opts c.fresh]) := by
  simp [channelOf, List.foldl_append, registerHook]

/-- Repeatedly re-sorting after each push is the same as one stable sort
of the registration-order list: the re-sort performed at registration is
deterministic with an insertion-order tie-break. -/
theorem channelOf_eq_sortDesc {α : Type} (calls : List (RegCall α)) :
    channelOf calls = sortDesc entryPrio (entriesOf calls) := by
  induction calls using List.reverseRecOn with
  | nil => rfl
  | append_singleton cs c ih =>
      rw [channelOf_append_singleton, ih, sortDesc_append_singleton,
        sortDesc_idem, ← sortDesc_append_singleton]
      simp [entriesOf]

/-- C1: for every channel and every sequence of register calls, `execute`
runs the enabled entries strictly in descending priority order, and
entries with equal priority run in the order they were registered: the
execution trace is the channel order restricted to enabled entries, the
channel is sorted by descending priority, entries of any fixed priority
appear in registration order, and the channel equals the deterministic
stable sort of the registration sequence. -/
theorem execute_respects_priority_and_registration_order {α : Type}
    (calls : List (RegCall α)) (d : α) :
    (executeHooks (channelOf calls) d).2 =
      ((channelOf calls).filter (fun h => h.enabled)).map (fun x => x.id) ∧
    (channelOf calls).Pairwise (fun a b => b.priority ≤ a.priority) ∧
    (∀ p : Int, (channelOf calls).filter (fun e => e.priority = p) =
      (entriesOf calls).filter (fun e => e.priority = p)) ∧
    channelOf calls = sortDesc entryPrio (entriesOf calls) := by
  refine ⟨executeHooks_trace _ _, ?_, ?_, channelOf_eq_sortDesc calls⟩
  · rw [channelOf_eq_sortDesc]
    exact sortDesc_sorted entryPrio _
  · intro p
    rw [channelOf_eq_sortDesc]
    exact sortDesc_filter entryPrio _ p

/-- Pre-existing channel entry for the registerHook return-value
analysis: one hook of priority 0 with id "h1". -/
def c2Existing : HookEntry Nat :=
  { callback := fun _ _ => HookOutcome.undef
    priority := 0
    id := "h1"
    enabled := true }

/-- Result of registering a priority-5 hook without an explicit id
(fresh generated id "h2") into the channel holding `c2Existing`. -/
def c2Result : RegisterResult Nat :=
  registerHook [c2Existing] (fun _ _ => HookOutcome.undef)
    { priority := some 5 } "h2"

/-- C2 (code bug): registering a priority-5 hook with generated id "h2"
into a channel already holding the priority-0 hook "h1" stores the new
entry under "h2" at the front of the re-sorted channel, yet
`registerHook` returns "h1" — the id of the pre-existing entry that ends
up last after the sort — and `removeHook` with the returned id removes
the old entry while the just-inserted one stays. -/
theorem register_returns_foreign_id_bug :
    c2Result.returnedId = "h1" ∧
    (mkEntry (fun _ _ => HookOutcome.undef) { priority := some 5 } "h2" :
      HookEntry Nat).id = "h2" ∧
    c2Result.channel.map (fun x => x.id) = ["h2", "h1"] ∧
    (removeHook c2Result.channel c2Result.returnedId).map (fun x => x.id) =
      ["h2"] :=
  ⟨rfl, rfl, rfl, rfl⟩

/-- Replace an entry's callback by one that returns `undefined`, keeping
id, priority and enabled flag. -/
def withUndefCallback {α : Type} (e : HookEntry α) : HookEntry α :=
  { e with callback := fun _ _ => HookOutcome.undef }

/-- C4: if one entry's callback throws during `execute`, execution
continues with the payload unchanged from before that entry — the
channel behaves exactly as if the throwing entry had returned nothing —
and the trace still lists every enabled entry of the channel, so every
later enabled entry still runs. -/
theorem throwing_hook_isolated {α : Type} (pre post : List (HookEntry α))
    (e : HookEntry α) (d : α)
    (hen : e.enabled = true)
    (hthrow : e.callback (executeHooks pre d).1 d = HookOutcome.thrown) :
    executeHooks (pre ++ e :: post) d =
      executeHooks (pre ++ withUndefCallback e :: post) d ∧
    (executeHooks (pre ++ e :: post) d).2 =
      ((pre ++ e :: post).filter (fun h => h.enabled)).map (fun x => x.id) := by
  refine ⟨?_, executeHooks_trace _ _⟩
  have hsplit : (pre ++ e :: post).filter (fun h => h.enabled) =
      pre.filter (fun h => h.enabled) ++
        e :: post.filter (fun h => h.enabled) := by
    simp [List.filter_append, List.filter_cons, hen]
  have hsplit2 : (pre ++ withUndefCallback e :: post).filter
        (fun h => h.enabled) =
      pre.filter (fun h => h.enabled) ++
        withUndefCallback e :: post.filter (fun h => h.enabled) := by
    simp [List.filter_append, List.filter_cons, hen, withUndefCallback]
  unfold executeHooks at hthrow ⊢
  rw [hsplit, hsplit2, executeHooksFrom_append, executeHooksFrom_append]
  simp only [executeHooksFrom, withUndefCallback, hthrow]

/-- Concrete entry that increments the payload. -/
def c4Inc : HookEntry Nat :=
  { callback := fun acc _ => HookOutcome.value (acc + 1)
    priority := 0
    id := "inc"
    enabled := true }

/-- Concrete entry whose callback always throws. -/
def c4Boom : HookEntry Nat :=
  { callback := fun _ _ => HookOutcome.thrown
    priority := 0
    id := "boom"
    enabled := true }

/-- Concrete entry that multiplies the payload by ten. -/
def c4Ten : HookEntry Nat :=
  { callback := fun acc _ => HookOutcome.value (acc * 10)
    priority := 0
    id := "ten"
    enabled := true }

/-- Witness for C4 at a concrete three-entry channel whose middle entry
throws. -/
theorem throwing_hook_isolated_witness :
    executeHooks ([c4Inc] ++ c4Boom :: [c4Ten]) 5 =
      executeHooks ([c4Inc] ++ withUndefCallback c4Boom :: [c4Ten]) 5 ∧
    (executeHooks ([c4Inc] ++ c4Boom :: [c4Ten]) 5).2 =
      (([c4Inc] ++ c4Boom :: [c4Ten]).filter (fun h => h.enabled)).map
        (fun x => x.id) :=
  throwing_hook_isolated [c4Inc] [c4Ten] c4Boom 5 rfl rfl

/-! ## Startup coordinator (registerStartupProcess / ensureStartup)

The source flips `this.startupInitiated` to `true` immediately after the
guard and before the first `await` (no suspension point lies between the
check and the assignment), so in the single-threaded cooperative
execution model the check-and-set is one atomic step.  `ensureStartup`
is therefore modelled as a state transition that additionally emits its
observable events: the flag flip followed by one `run` event per startup
process invoked.  `safeInvokeStartup` catches every callback failure, so
a process's own outcome never alters control flow and the callback body
needs no representation beyond its `run` event. -/

/-- Observable events of one `ensureStartup` call: the synchronous flag
flip, then the invocation of each startup process. -/
inductive StartupEvent where
  | setCompleted
  | run (id : String)
deriving DecidableEq

/-- One registered startup process (`registerStartupProcess` object
literal). -/
structure StartupProcess where
  id : String
  priority : Int
  runIfAlreadyStarted : Bool
deriving DecidableEq

/-- Priority projection for the startup list sort. -/
def procPrio (p : StartupProcess) : Int := p.priority

/-- Options bag accepted by `registerStartupProcess`. -/
structure StartupOptions where
  id : Option String := none
  priority : Option Int := none
  runIfAlreadyStarted : Option Bool := none

/-- The process object built by `registerStartupProcess`; `fresh` stands
for the generated `startup_${Date.now()}_${Math.random()}` id. -/
def mkStartupProcess (opts : StartupOptions) (fresh : String) :
    StartupProcess :=
  { id := jsOrString opts.id fresh
    priority := opts.priority.getD 0
    runIfAlreadyStarted := opts.runIfAlreadyStarted != some false }

/-- Mutable coordinator state: the completion flag and the
priority-sorted process list. -/
structure StartupState where
  startupInitiated : Bool
  startupProcesses : List StartupProcess

/-- Model of `registerStartupProcess`: push the process, re-sort by
descending priority, and report the returned id together with whether a
late asynchronous run was scheduled (system already initiated and
`runIfAlreadyStarted` not explicitly false). -/
def registerStartupProcess (s : StartupState) (opts : StartupOptions)
    (fresh : String) : StartupState × String × Bool :=
  let proc := mkStartupProcess opts fresh
  ({ s with
      startupProcesses := sortDesc procPrio (s.startupProcesses ++ [proc]) },
    proc.id, s.startupInitiated && proc.runIfAlreadyStarted)

/-- Model of `ensureStartup`: if already initiated, return immediately
with no events; otherwise atomically flip the flag and run every
registered process in list order, the flip strictly first. -/
def ensureStartup (s : StartupState) : StartupState × List StartupEvent :=
  if s.startupInitiated then (s, [])
  else
    ({ s with startupInitiated := true },
      StartupEvent.setCompleted ::
        s.startupProcesses.map (fun p => StartupEvent.run p.id))

/-- A sequence of `ensureStartup` calls against the shared state, in the
order their atomic check-and-set steps execute; returns the final state
and each call's event list. -/
def ensureStartupCalls : Nat → StartupState → StartupState × List (List StartupEvent)
  | 0, s => (s, [])
  | n + 1, s =>
      let r := ensureStartup s
      let rest := ensureStartupCalls n r.1
      (rest.1, r.2 :: rest.2)

/-- One `registerStartupProcess` call: the options bag and the fresh id
the environment would generate. -/
structure StartupRegCall where
  opts : StartupOptions
  fresh : String

/-- The coordinator state of a freshly constructed hook system. -/
def initialStartupState : StartupState :=
  { startupInitiated := false, startupProcesses := [] }

/-- Processes in registration order (what was pushed, before sorting). -/
def startupEntriesOf (calls : List StartupRegCall) : List StartupProcess :=
  calls.map (fun c => mkStartupProcess c.opts c.fresh)

/-- Coordinator state after a sequence of registrations on a fresh
system. -/
def startupStateOf (calls : List StartupRegCall) : StartupState :=
  calls.foldl (fun s c => (registerStartupProcess s c.opts c.fresh).1)
    initialStartupState

theorem startupStateOf_spec (calls : List StartupRegCall) :
    startupStateOf calls =
      { startupInitiated := false
        startupProcesses := sortDesc procPrio (startupEntriesOf calls) } := by
  induction calls using List.reverseRecOn with
  | nil => rfl
  | append_singleton cs c ih =>
      have h2 : startupStateOf (cs ++ [c]) =
          (registerStartupProcess (startupStateOf cs) c.opts c.fresh).1 := by
        simp [startupStateOf, List.foldl_append]
      rw [h2, ih]
      simp only [registerStartupProcess, startupEntriesOf, List.map_append,
        List.map_cons, List.map_nil]
      rw [sortDesc_append_singleton, sortDesc_idem, ← sortDesc_append_singleton]

theorem ensureStartupCalls_initiated (n : Nat) (s : StartupState)
    (h : s.startupInitiated = true) :
    ensureStartupCalls n s = (s, List.replicate n []) := by
  induction n with
  | zero => rfl
  | succ n ih => simp [ensureStartupCalls, ensureStartup, h, ih,
      List.replicate_succ]

/-- C5: `ensureStartup` flips the completion flag synchronously before
invoking any startup process, so across any number of interleaved calls
on a system with any set of registered processes, the first call emits
the flag flip followed by exactly one run of every registered process in
descending-priority order, and every later call returns immediately
emitting nothing. -/
theorem ensureStartup_runs_once (calls : List StartupRegCall) (n : Nat) :
    (ensureStartupCalls (n + 1) (startupStateOf calls)).2 =
      (StartupEvent.setCompleted ::
        (startupStateOf calls).startupProcesses.map
          (fun p => StartupEvent.run p.id)) :: List.replicate n [] ∧
    (ensureStartupCalls (n + 1) (startupStateOf calls)).1.startupInitiated =
      true ∧
    (startupStateOf calls).startupProcesses.Pairwise
      (fun a b => b.priority ≤ a.priority) := by
  have hinit : (startupStateOf calls).startupInitiated = false := by
    rw [startupStateOf_spec]
  refine ⟨?_, ?_, ?_⟩
  · simp [ensureStartupCalls, ensureStartup, hinit,
      ensureStartupCalls_initiated]
  · simp [ensureStartupCalls, ensureStartup, hinit,
      ensureStartupCalls_initiated]
  · rw [startupStateOf_spec]
    exact sortDesc_sorted procPrio _

/-! ## Event loops (createEventLoop: scheduleNext / stop / start / update)

The controller closes over one `loopConfig` object and one `state`
object; both become explicit arguments here.  Timer handles are
abstracted to the pending delay they were scheduled with
(`timer : Option ℚ`); `setTimeout` never fails, so scheduling is total.
The `onStop` callback's only observable effect is its invocation, which
is recorded as a `StopEvent`; its exceptions are caught by the source.
The interval function receives `{ ...state, config: loopConfig }`; no
claim inspects the `config` component of that snapshot, so the model
passes the state.  The `task` field and `runTask` are not needed by any
claim and are not modelled. -/

/-- A JS value in interval position: a number, or anything whose
`Number(...)` conversion is NaN (NaN itself, `undefined`, non-numeric
strings, objects). -/
inductive JSVal where
  | num (q : ℚ)
  | nonNumeric
deriving DecidableEq

/-- JS `Number(v)`, with `none` standing for NaN. -/
def jsToNumber : JSVal → Option ℚ
  | .num q => some q
  | .nonNumeric => none

/-- JS `Number(v) || 0`: zero and NaN are falsy and fall through to 0. -/
def numberOrZero (v : JSVal) : ℚ :=
  match jsToNumber v with
  | some q => if q = 0 then 0 else q
  | none => 0

/-- The delay computation `Math.max(0, Number(interval) || 0)` in
`scheduleNext`. -/
def computeDelay (v : JSVal) : ℚ := max 0 (numberOrZero v)

/-- Per-loop mutable state (`state` object in `createEventLoop`). -/
structure LoopState where
  id : String
  iterations : Nat
  lastRunAt : Option String
  running : Bool
  timer : Option ℚ
deriving DecidableEq

/-- The `interval` configuration field: a constant value or a function
of the loop-state snapshot. -/
inductive IntervalVal where
  | const (v : JSVal)
  | func (f : LoopState → JSVal)

/-- The `typeof loopConfig.interval === 'function'` dispatch in
`scheduleNext`. -/
def evalInterval : IntervalVal → LoopState → JSVal
  | .const v, _ => v
  | .func f, s => f s

/-- The normalized `loopConfig` object built by `createEventLoop`
(`maxIterations = none` models Infinity; `onStop` records whether a stop
callback function is configured). -/
structure LoopConfig where
  interval : IntervalVal
  condition : Option (LoopState → Bool)
  maxIterations : Option ℚ
  autoStart : Bool
  onStop : Bool

/-- One invocation of the configured `onStop` callback: it receives the
frozen state snapshot and the stop reason. -/
structure StopEvent where
  snapshot : LoopState
  reason : String
deriving DecidableEq

/-- Model of `scheduleNext`: abort if not running, otherwise set the
timer to the clamped delay computed from the (possibly function-valued)
interval against the current state. -/
def scheduleNext (cfg : LoopConfig) (s : LoopState) : LoopState :=
  if s.running then
    { s with timer := some (computeDelay (evalInterval cfg.interval s)) }
  else s

/-- Model of `stop(reason)`: a no-op when not running; otherwise clear
the running flag and any pending timer, then invoke the configured stop
callback once with the frozen post-stop snapshot and the reason. -/
def stop (cfg : LoopConfig) (reason : String) (s : LoopState) :
    LoopState × List StopEvent :=
  if s.running then
    let s2 := { s with running := false, timer := none }
    (s2, if cfg.onStop then [{ snapshot := s2, reason := reason }] else [])
  else (s, [])

/-- Model of `start()`: a no-op when already running; otherwise set the
running flag, reset the iteration counter to zero, and schedule the
next tick. -/
def start (cfg : LoopConfig) (s : LoopState) : LoopState :=
  if s.running then s
  else scheduleNext cfg { s with running := true, iterations := 0 }

/-- Partial configuration accepted by `update`; a `some` field is a key
present on the merged-in object (`Object.assign`). -/
structure PartialLoopConfig where
  interval : Option IntervalVal := none
  condition : Option (Option (LoopState → Bool)) := none
  maxIterations : Option (Option ℚ) := none
  autoStart : Option Bool := none
  onStop : Option Bool := none

/-- `Object.assign(loopConfig, newConfig)`: present keys overwrite. -/
def mergeConfig (cfg : LoopConfig) (p : PartialLoopConfig) : LoopConfig :=
  { interval := p.interval.getD cfg.interval
    condition := p.condition.getD cfg.condition
    maxIterations := p.maxIterations.getD cfg.maxIterations
    autoStart := p.autoStart.getD cfg.autoStart
    onStop := p.onStop.getD cfg.onStop }

/-- Model of `update(newConfig)`: merge into the live configuration; if
running, cancel any pending timer and immediately reschedule under the
new configuration. -/
def update (cfg : LoopConfig) (p : PartialLoopConfig) (s : LoopState) :
    LoopConfig × LoopState :=
  let cfg2 := mergeConfig cfg p
  if s.running then (cfg2, scheduleNext cfg2 { s with timer := none })
  else (cfg2, s)

/-- C6: `stop(reason)` is idempotent — a second stop right after any
stop is a no-op emitting no callback invocation — and an actual stop of
a running loop fires the configured stop callback exactly once, passing
the frozen post-stop state snapshot and the reason. -/
theorem stop_idempotent_once (cfg : LoopConfig) (r1 r2 : String)
    (s : LoopState) :
    stop cfg r2 (stop cfg r1 s).1 = ((stop cfg r1 s).1, []) ∧
    (s.running = true →
      stop cfg r1 s =
        ({ s with running := false, timer := none },
          if cfg.onStop then
            [{ snapshot := { s with running := false, timer := none },
               reason := r1 }]
          else [])) := by
  constructor
  · by_cases h : s.running <;> simp [stop, h]
  · intro h
    simp [stop, h]

/-- Loop configuration with a configured stop callback, for the C6
witness. -/
def c6Cfg : LoopConfig :=
  { interval := IntervalVal.const (JSVal.num 1000)
    condition := none
    maxIterations := none
    autoStart := true
    onStop := true }

/-- A running loop state with two completed iterations and a pending
timer, for the C6 witness. -/
def c6State : LoopState :=
  { id := "L6", iterations := 2, lastRunAt := none, running := true,
    timer := some 7 }

/-- Witness for C6 at a concrete running loop: the double stop is a
no-op and the single actual stop fires the callback once. -/
theorem stop_idempotent_once_witness :
    stop c6Cfg "condition" (stop c6Cfg "manual" c6State).1 =
      ((stop c6Cfg "manual" c6State).1, []) ∧
    stop c6Cfg "manual" c6State =
      ({ c6State with running := false, timer := none },
        [{ snapshot := { c6State with running := false, timer := none },
           reason := "manual" }]) :=
  ⟨(stop_idempotent_once c6Cfg "manual" "condition" c6State).1, by
    have h := (stop_idempotent_once c6Cfg "manual" "condition" c6State).2 rfl
    simpa using h⟩

/-- Loop configuration without a stop callback, used by the C7 and C8
analyses. -/
def c7Cfg : LoopConfig :=
  { interval := IntervalVal.const (JSVal.num 1000)
    condition := none
    maxIterations := none
    autoStart := true
    onStop := false }

/-- A loop that is already running with three completed iterations. -/
def c7Running : LoopState :=
  { id := "L7", iterations := 3, lastRunAt := none, running := true,
    timer := none }

/-- A non-running loop with a stale iteration counter. -/
def c7Idle : LoopState :=
  { id := "L7", iterations := 5, lastRunAt := none, running := false,
    timer := none }

/-- C7 counterexample: on a loop that is already running with three
iterations, `start()` returns without touching the state — the
iteration counter stays at 3 instead of being reset to zero, refuting
the claim for "every loop controller in any state". -/
theorem start_running_noop_cex :
    start c7Cfg c7Running = c7Running ∧
    (start c7Cfg c7Running).iterations = 3 :=
  ⟨rfl, rfl⟩

/-- C7 amended: on a non-running loop, `start()` resets the iteration
counter to zero and puts the loop into the running state with a next
tick scheduled; on an already-running loop, `start()` is a no-op. -/
theorem start_resets_and_schedules (cfg : LoopConfig) (s : LoopState) :
    (s.running = false →
      start cfg s =
        { s with
            running := true
            iterations := 0
            timer := some (computeDelay (evalInterval cfg.interval
              { s with running := true, iterations := 0 })) }) ∧
    (s.running = true → start cfg s = s) := by
  constructor
  · intro h
    simp [start, h, scheduleNext]
  · intro h
    simp [start, h]

/-- Witness for the amended C7 at concrete idle and running loops. -/
theorem start_resets_and_schedules_witness :
    start c7Cfg c7Idle =
      { c7Idle with
          running := true
          iterations := 0
          timer := some (computeDelay (evalInterval c7Cfg.interval
            { c7Idle with running := true, iterations := 0 })) } ∧
    start c7Cfg c7Running = c7Running :=
  ⟨(start_resets_and_schedules c7Cfg c7Idle).1 rfl,
    (start_resets_and_schedules c7Cfg c7Running).2 rfl⟩

/-- C8: on a running loop, `update(partialConfig)` merges the given
fields into the live configuration, cancels any pending timer, and
immediately reschedules using the new configuration evaluated against
the timer-cleared state, while every other state field — in particular
the iteration counter and the running flag — is unchanged. -/
theorem update_reschedules_preserves_state (cfg : LoopConfig)
    (p : PartialLoopConfig) (s : LoopState) (h : s.running = true) :
    update cfg p s =
      (mergeConfig cfg p,
        { s with timer := some (computeDelay (evalInterval
            (mergeConfig cfg p).interval { s with timer := none })) }) := by
  simp [update, h, scheduleNext]

/-- The `update({ maxIterations: 50 })` payload from the specification's
mid-run reconfiguration scenario. -/
def c8Partial : PartialLoopConfig :=
  { maxIterations := some (some 50) }

/-- Witness for C8: raising `maxIterations` mid-run reschedules without
resetting the iteration counter. -/
theorem update_reschedules_preserves_state_witness :
    update c7Cfg c8Partial c7Running =
      (mergeConfig c7Cfg c8Partial,
        { c7Running with timer := some (computeDelay (evalInterval
            (mergeConfig c7Cfg c8Partial).interval
            { c7Running with timer := none })) }) :=
  update_reschedules_preserves_state c7Cfg c8Partial c7Running rfl

/-- C10: whenever a next tick is scheduled while the loop is running,
the timer is always set (scheduling never fails or skips the tick) and
the computed delay is `max(0, Number(interval) || 0)`, which clamps
negative, NaN, and non-numeric interval values to a zero delay. -/
theorem scheduleNext_clamps_delay (cfg : LoopConfig) (s : LoopState)
    (h : s.running = true) :
    scheduleNext cfg s =
      { s with timer := some (max 0 (numberOrZero (evalInterval cfg.interval s))) } ∧
    (0 : ℚ) ≤ max 0 (numberOrZero (evalInterval cfg.interval s)) ∧
    computeDelay (JSVal.num (-5)) = 0 ∧
    computeDelay JSVal.nonNumeric = 0 := by
  refine ⟨by simp [scheduleNext, h, computeDelay], le_max_left 0 _, ?_, ?_⟩
  · norm_num [computeDelay, numberOrZero, jsToNumber]
  · norm_num [computeDelay, numberOrZero, jsToNumber]

/-- Loop configuration with a negative constant interval, for the C10
witness. -/
def c10Cfg : LoopConfig :=
  { interval := IntervalVal.const (JSVal.num (-5))
    condition := none
    maxIterations := none
    autoStart := true
    onStop := false }

/-- Witness for C10 at a running loop with a negative interval. -/
theorem scheduleNext_clamps_delay_witness :
    scheduleNext c10Cfg c7Running =
      { c7Running with timer := some (max 0 (numberOrZero (evalInterval c10Cfg.interval c7Running))) } ∧
    (0 : ℚ) ≤ max 0 (numberOrZero (evalInterval c10Cfg.interval c7Running)) ∧
    computeDelay (JSVal.num (-5)) = 0 ∧
    computeDelay JSVal.nonNumeric = 0 :=
  scheduleNext_clamps_delay c10Cfg c7Running rfl

/-! ## JSON values, stringify and parse

Model of the host `JSON.stringify` / `JSON.parse` used by the
data-transform helpers.  Numbers are modelled as integers (no claim
involves fractional numbers); the parser accepts null, booleans,
integers, strings with backslash escapes for quote and backslash,
arrays, and objects, and fails on anything else — in particular on the
malformed replacement text of the C3 scenario.  Arrays and objects are
represented with inline cons constructors so that every recursion over
values is plainly structural and evaluates inside the kernel. -/

/-- A structured JSON value; `arrCons h t` is the array with head `h`
and remaining items `t`, `objCons k v t` the object with first field
`k : v` and remaining fields `t`. -/
inductive Json where
  | null
  | boolean (b : Bool)
  | num (n : Int)
  | str (s : String)
  | arrNil
  | arrCons (head : Json) (tail : Json)
  | objNil
  | objCons (key : String) (val : Json) (tail : Json)
deriving DecidableEq

/-- Escape a character for a JSON string literal. -/
def escapeJsonChar (c : Char) : String :=
  if c = '"' then "\\\""
  else if c = '\\' then "\\\\"
  else String.singleton c

/-- Escape a string for a JSON string literal. -/
def escapeJson (s : String) : String :=
  String.join (s.toList.map escapeJsonChar)

/-- Serializer behind `jsonStringify`: in top mode (`true`) a value is
rendered in full; in tail mode (`false`) array items and object fields
are rendered as `,`-prefixed continuations and the empty tail renders
as nothing. -/
def jsonSer : Bool → Json → String
  | _, .null => "null"
  | _, .boolean true => "true"
  | _, .boolean false => "false"
  | _, .num n => toString n
  | _, .str s => "\"" ++ escapeJson s ++ "\""
  | true, .arrNil => "[]"
  | false, .arrNil => ""
  | true, .arrCons h t => "[" ++ jsonSer true h ++ jsonSer false t ++ "]"
  | false, .arrCons h t => "," ++ jsonSer true h ++ jsonSer false t
  | true, .objNil => "\x7b\x7d"
  | false, .objNil => ""
  | true, .objCons k v t =>
      "\x7b" ++ "\"" ++ escapeJson k ++ "\":" ++ jsonSer true v ++
        jsonSer false t ++ "\x7d"
  | false, .objCons k v t =>
      "," ++ "\"" ++ escapeJson k ++ "\":" ++ jsonSer true v ++
        jsonSer false t

/-- Model of `JSON.stringify` (compact form, no spaces). -/
def jsonStringify (j : Json) : String := jsonSer true j

/-- Skip JSON whitespace. -/
def skipWs : List Char → List Char
  | c :: rest =>
      if c = ' ' ∨ c = '\n' ∨ c = '\t' ∨ c = '\r' then skipWs rest
      else c :: rest
  | [] => []

/-- Parse the remainder of a JSON string literal (after the opening
quote), handling the quote and backslash escapes produced by
`escapeJson`. -/
def parseStringLit : List Char → Option (String × List Char)
  | '"' :: rest => some ("", rest)
  | '\\' :: c :: rest =>
      if c = '"' ∨ c = '\\' then
        (parseStringLit rest).map (fun r => (String.singleton c ++ r.1, r.2))
      else none
  | c :: rest =>
      (parseStringLit rest).map (fun r => (String.singleton c ++ r.1, r.2))
  | [] => none

/-- Numeric value of a digit run. -/
def digitsToNat (ds : List Char) : Nat :=
  ds.foldl (fun n c => n * 10 + (c.toNat - 48)) 0

mutual

/-- Fuel-bounded model of `JSON.parse` on a character list: parse one
value and return it with the unconsumed remainder, or fail. -/
def parseValue : Nat → List Char → Option (Json × List Char)
  | 0, _ => none
  | fuel + 1, cs =>
      match skipWs cs with
      | 'n' :: 'u' :: 'l' :: 'l' :: rest => some (Json.null, rest)
      | 't' :: 'r' :: 'u' :: 'e' :: rest => some (Json.boolean true, rest)
      | 'f' :: 'a' :: 'l' :: 's' :: 'e' :: rest =>
          some (Json.boolean false, rest)
      | '"' :: rest => (parseStringLit rest).map (fun r => (Json.str r.1, r.2))
      | '[' :: rest =>
          (match skipWs rest with
            | ']' :: rest2 => some (Json.arrNil, rest2)
            | rest2 => parseItems fuel rest2)
      | '\x7b' :: rest =>
          (match skipWs rest with
            | '\x7d' :: rest2 => some (Json.objNil, rest2)
            | rest2 => parseFields fuel rest2)
      | '-' :: c :: rest =>
          if c.isDigit then
            some (Json.num (-(digitsToNat (c :: rest.takeWhile Char.isDigit))),
              rest.dropWhile Char.isDigit)
          else none
      | c :: rest =>
          if c.isDigit then
            some (Json.num (digitsToNat (c :: rest.takeWhile Char.isDigit)),
              rest.dropWhile Char.isDigit)
          else none
      | [] => none

/-- Parse the comma-separated items of a non-empty array, then the
closing bracket. -/
def parseItems : Nat → List Char → Option (Json × List Char)
  | 0, _ => none
  | fuel + 1, cs =>
      match parseValue fuel cs with
      | some (j, rest) =>
          (match skipWs rest with
            | ',' :: rest2 =>
                (parseItems fuel rest2).map
                  (fun r => (Json.arrCons j r.1, r.2))
            | ']' :: rest2 => some (Json.arrCons j Json.arrNil, rest2)
            | _ => none)
      | none => none

/-- Parse the comma-separated fields of a non-empty object, then the
closing brace. -/
def parseFields : Nat → List Char → Option (Json × List Char)
  | 0, _ => none
  | fuel + 1, cs =>
      match skipWs cs with
      | '"' :: rest =>
          (match parseStringLit rest with
            | some (key, rest2) =>
                (match skipWs rest2 with
                  | ':' :: rest3 =>
                      (match parseValue fuel rest3 with
                        | some (j, rest4) =>
                            (match skipWs rest4 with
                              | ',' :: rest5 =>
                                  (parseFields fuel rest5).map
                                    (fun r => (Json.objCons key j r.1, r.2))
                              | '\x7d' :: rest5 =>
                                  some (Json.objCons key j Json.objNil, rest5)
                              | _ => none)
                        | none => none)
                  | _ => none)
            | none => none)
      | _ => none

end

/-- Model of `JSON.parse`: parse one value, requiring only whitespace to
remain. -/
def jsonParse (s : String) : Option Json :=
  match parseValue (s.length + 1) s.toList with
  | some (j, rest) => if skipWs rest = [] then some j else none
  | none => none

/-! ## Literal string matching and replacement on character lists

Kernel-evaluable models of the escaped-regex operations: matching a
literal pattern at the head, testing for a substring occurrence, and
replacing every non-overlapping occurrence left to right.  An empty
pattern is never produced by the repository's helpers; `replaceChars`
leaves the subject unchanged for it. -/

/-- If `pat` is an initial segment of `cs`, return the remainder. -/
def matchAt : List Char → List Char → Option (List Char)
  | cs, [] => some cs
  | [], _ :: _ => none
  | c :: cs, p :: ps => if c = p then matchAt cs ps else none

/-- Substring occurrence test (the `matcher.test(content)` of an
escaped literal matcher). -/
def containsChars : List Char → List Char → Bool
  | [], pat => (matchAt [] pat).isSome
  | c :: rest, pat =>
      (matchAt (c :: rest) pat).isSome || containsChars rest pat

/-- Fuel-bounded replacement of every non-overlapping occurrence of
`pat` by `repl`, left to right (the `content.replace(matcher, toString)`
of an escaped global literal matcher). -/
def replaceChars : Nat → List Char → List Char → List Char → List Char
  | 0, cs, _, _ => cs
  | fuel + 1, cs, pat, repl =>
      match cs with
      | [] => []
      | c :: rest =>
          match pat, matchAt cs pat with
          | _ :: _, some rem => repl ++ replaceChars fuel rem pat repl
          | _, _ => c :: replaceChars fuel rest pat repl

/-- String-level substring test. -/
def containsStr (content pat : String) : Bool :=
  containsChars content.toList pat.toList

/-- String-level global literal replacement. -/
def replaceStr (content pat repl : String) : String :=
  String.mk (replaceChars (content.length + 1) content.toList pat.toList
    repl.toList)

/-! ## Pipeline stages built on the hook channels

The JS strict comparisons `transformedData.body !== responseBody` and
`urlReplacement.url !== modifiedRequest.requestData.url` compare object
references and string values respectively; body sameness is modelled
structurally, which coincides with the reference comparison both when no
hook replaced the body (the same object flows through) and when a hook
substituted a structurally different value.  A string matcher passed to
`replaceUrl`/`replaceInResponse` is escaped character-for-character and,
for `replaceUrl`, anchored with `^`/`$`, so its regex semantics are an
exact-match test and a literal substring search respectively; the
replacement strings contain no dollar patterns in any claim, so
`String.replace` models `content.replace(matcher, toString)`. -/

/-- Classified body type attached to `responseData.bodyType`. -/
inductive BodyType where
  | json
  | text
  | binary
  | unknown
deriving DecidableEq

/-- A decoded response body: a JS value obtained from JSON decoding or
text decoding (`jsv`), an opaque binary buffer, or the null body set
after a decode failure. -/
inductive BodyVal where
  | jsv (j : Json)
  | binaryBuf
  | nullBody
deriving DecidableEq

/-- The serialization dispatch
`typeof data.body === 'string' ? data.body : JSON.stringify(data.body)`:
a JS string body is used as-is, anything else is stringified
(`JSON.stringify` of an ArrayBuffer gives the empty object). -/
def contentOf : BodyVal → String
  | .jsv (Json.str s) => s
  | .jsv j => jsonStringify j
  | .binaryBuf => "\x7b\x7d"
  | .nullBody => "null"

/-- The payload of the `dataTransform` channel:
`{ ...responseData, originalBody: responseBody }`. -/
structure TransformPayload where
  status : Nat
  statusText : String
  url : String
  ok : Bool
  bodyType : BodyType
  body : BodyVal
  originalBody : BodyVal
  requestUrl : String
deriving DecidableEq

/-- The hook callback registered by `replaceInResponse(fromS, toS)`: on
a text or json body whose serialized content contains the literal
`fromS`, replace every occurrence by `toS`; for a json body the new
content is re-parsed — `JSON.parse` throwing on malformed output is the
`thrown` outcome.  Anything else returns the payload unchanged. -/
def replaceInResponseCallback (fromS toS : String)
    (data _orig : TransformPayload) : HookOutcome TransformPayload :=
  if data.bodyType = BodyType.text ∨ data.bodyType = BodyType.json then
    (if containsStr (contentOf data.body) fromS then
      (if data.bodyType = BodyType.json then
        match jsonParse (replaceStr (contentOf data.body) fromS toS) with
        | some j => HookOutcome.value { data with body := BodyVal.jsv j }
        | none => HookOutcome.thrown
      else
        HookOutcome.value
          { data with
              body := BodyVal.jsv
                (Json.str (replaceStr (contentOf data.body) fromS toS)) })
    else HookOutcome.value data)
  else HookOutcome.value data

/-- Model of `replaceInResponse`: register the replacement callback on
the dataTransform channel. -/
def replaceInResponse (chan : List (HookEntry TransformPayload))
    (fromS toS : String) (opts : HookOptions) (fresh : String) :
    RegisterResult TransformPayload :=
  registerHook chan (replaceInResponseCallback fromS toS) opts fresh

/-- What the caller receives after the data-transform stage: the
original transport response, or a reconstructed `Response` carrying the
serialized new body. -/
inductive PipelineResponse where
  | original
  | reconstructed (newBody : String)
deriving DecidableEq

/-- Result of the data-transform section: the response returned to the
caller, the final `responseData.body`, and the `bodyTransformed` flag. -/
structure DataTransformResult where
  response : PipelineResponse
  body : BodyVal
  bodyTransformed : Bool
deriving DecidableEq

/-- Model of the data-transform section of the intercepted fetch: run
the `dataTransform` channel over the response data extended with the
original decoded body; if the resulting body differs, serialize it, mark
`bodyTransformed`, and return a reconstructed response; otherwise return
the original response unchanged.  The surrounding code contains no
re-parse of the transformed body, and `executeHooks` never throws, so
this section always completes. -/
def dataTransformStage (chan : List (HookEntry TransformPayload))
    (responseData : TransformPayload) : DataTransformResult :=
  let responseBody := responseData.body
  let transformed :=
    (executeHooks chan { responseData with originalBody := responseBody }).1
  if transformed.body ≠ responseBody then
    { response := PipelineResponse.reconstructed (contentOf transformed.body)
      body := transformed.body
      bodyTransformed := true }
  else
    { response := PipelineResponse.original
      body := responseData.body
      bodyTransformed := false }

/-- The json-classified body of the C3 scenario: the object with the
single field a : "x". -/
def c3Body : Json := Json.objCons "a" (Json.str "x") Json.objNil

/-- The response data of the C3 scenario: a successful response with a
json body. -/
def c3Payload : TransformPayload :=
  { status := 200
    statusText := "OK"
    url := "https://api.example.com/d"
    ok := true
    bodyType := BodyType.json
    body := BodyVal.jsv c3Body
    originalBody := BodyVal.jsv c3Body
    requestUrl := "https://api.example.com/d" }

/-- The dataTransform channel holding one `replaceInResponse` hook that
rewrites the json text into something unparsable. -/
def c3Chan : List (HookEntry TransformPayload) :=
  (replaceInResponse [] "\"x\"" "oops" { } "dt1").channel

/-- C3 counterexample: the `replaceInResponse` hook replaces the json
body text so that the re-parse fails and the callback throws, yet the
pipeline's data-transform stage returns the original response with the
prior body and no transformation flag — it silently continues instead of
propagating a parse error to the caller. -/
theorem transform_parse_failure_swallowed :
    replaceInResponseCallback "\"x\"" "oops" c3Payload c3Payload =
      HookOutcome.thrown ∧
    jsonParse (replaceStr (contentOf c3Payload.body) "\"x\"" "oops") = none ∧
    dataTransformStage c3Chan c3Payload =
      { response := PipelineResponse.original
        body := c3Payload.body
        bodyTransformed := false } := by
  refine ⟨by decide, by decide, by decide⟩

/-- C3 amended: when a data-transform hook installed by
`replaceInResponse` replaces a json-classified body with text that fails
to re-parse, the parse failure is caught by the per-hook isolation in
`executeHooks`: the channel result keeps the prior payload and the
pipeline returns the original, untransformed response to the caller — no
parse error propagates. -/
theorem transform_parse_failure_isolated (fromS toS fresh : String)
    (rd : TransformPayload)
    (hjson : rd.bodyType = BodyType.json)
    (horig : rd.originalBody = rd.body)
    (hmatch : containsStr (contentOf rd.body) fromS = true)
    (hparse : jsonParse (replaceStr (contentOf rd.body) fromS toS) = none) :
    replaceInResponseCallback fromS toS rd rd = HookOutcome.thrown ∧
    dataTransformStage (replaceInResponse [] fromS toS { } fresh).channel rd =
      { response := PipelineResponse.original
        body := rd.body
        bodyTransformed := false } := by
  have hcb : replaceInResponseCallback fromS toS rd rd =
      HookOutcome.thrown := by
    simp [replaceInResponseCallback, hjson, hmatch, hparse]
  refine ⟨hcb, ?_⟩
  have hp : ({ rd with originalBody := rd.body } : TransformPayload) = rd := by
    cases rd
    simp_all
  have hchan : (replaceInResponse [] fromS toS { } fresh).channel =
      [mkEntry (replaceInResponseCallback fromS toS) { } fresh] := rfl
  rw [dataTransformStage, hchan]
  simp [executeHooks, executeHooksFrom, mkEntry, hp, hcb]

/-- Witness for the amended C3 at the concrete scenario of the
counterexample input. -/
theorem transform_parse_failure_isolated_witness :
    replaceInResponseCallback "\"x\"" "oops" c3Payload c3Payload =
      HookOutcome.thrown ∧
    dataTransformStage
        (replaceInResponse [] "\"x\"" "oops" { } "dt1").channel c3Payload =
      { response := PipelineResponse.original
        body := c3Payload.body
        bodyTransformed := false } :=
  transform_parse_failure_isolated "\"x\"" "oops" "dt1" c3Payload rfl rfl
    (by decide) (by decide)

/-- The payload of the `urlReplace` channel: `{ url, originalUrl }`. -/
structure UrlPayload where
  url : String
  originalUrl : String
deriving DecidableEq

/-- The hook callback registered by `replaceUrl(fromUrl, toUrl)` for a
literal string matcher and literal string replacement: escaping every
regex special character and anchoring with `^`/`$` makes the matcher an
exact-match test on the whole url, and replacing the full match by a
dollar-free replacement yields the replacement itself. -/
def replaceUrlCallback (fromUrl toUrl : String) (data _orig : UrlPayload) :
    HookOutcome UrlPayload :=
  if data.url = fromUrl then HookOutcome.value { data with url := toUrl }
  else HookOutcome.value data

/-- Model of `replaceUrl`: register the url-replacement callback on the
urlReplace channel. -/
def replaceUrl (chan : List (HookEntry UrlPayload)) (fromUrl toUrl : String)
    (opts : HookOptions) (fresh : String) : RegisterResult UrlPayload :=
  registerHook chan (replaceUrlCallback fromUrl toUrl) opts fresh

/-- Outcome of the url-replace section: the resource url handed to the
transport and the `requestData.urlReplaced` flag (absent modelled as
false). -/
structure UrlStageResult where
  finalUrl : String
  urlReplaced : Bool
deriving DecidableEq

/-- Model of the url-replace section of the intercepted fetch: run the
`urlReplace` channel over `{ url, originalUrl }`; if the resulting url
differs from the request's current url, the transport receives the new
url and `urlReplaced` is set true; otherwise the resource passes through
unchanged. -/
def urlReplaceStage (chan : List (HookEntry UrlPayload))
    (requestUrl : String) : UrlStageResult :=
  let repl :=
    (executeHooks chan { url := requestUrl, originalUrl := requestUrl }).1
  if repl.url ≠ requestUrl then
    { finalUrl := repl.url, urlReplaced := true }
  else
    { finalUrl := requestUrl, urlReplaced := false }

/-- The urlReplace channel after registering
`replaceUrl("https://a.com/x", "https://b.com/x")`. -/
def c9Chan : List (HookEntry UrlPayload) :=
  (replaceUrl [] "https://a.com/x" "https://b.com/x" { } "u1").channel

/-- C9: with `replaceUrl("https://a.com/x", "https://b.com/x")`
registered, a pipeline request to the exact url reaches the transport
rewritten to the replacement with `urlReplaced` set, while a request to
the non-identical url "https://a.com/y" passes through unchanged with
the flag unset — the string matcher is escaped and anchored to an exact
match. -/
theorem replaceUrl_exact_match_pipeline :
    urlReplaceStage c9Chan "https://a.com/x" =
      { finalUrl := "https://b.com/x", urlReplaced := true } ∧
    urlReplaceStage c9Chan "https://a.com/y" =
      { finalUrl := "https://a.com/y", urlReplaced := false } := by
  refine ⟨by decide, by decide⟩

end FetchHook
